import Mathlib

/-!
Verification of the streaming-reassembly client of the language_roleplay
repository.  The definitions below are a shallow embedding of the `send`
function of the React client (src/unnamed/part_001, lines 61-170; the
variant in src/unnamed/part_003 lines 230-353 has the same receive-loop
semantics): the receive loop appends each decoded text chunk to a buffer,
splits the buffer on the newline character, keeps the final fragment as
the new buffer, and for every complete line skips it when blank, parses
it as JSON, and dispatches on the `type` field to update the last
message of the conversation list.

Modelling notes:
* Chunks are lists of characters.  The JS code reads byte chunks and
  pushes them through a `TextDecoder` with `stream:true`, which buffers
  incomplete UTF-8 sequences internally and only ever emits whole
  characters; so the text seen by the buffering logic is a sequence of
  character chunks, which is what we model.
* `JSON.parse` is modelled by `parseObject`, a parser for flat JSON
  objects whose values are JSON strings - the only shape the wire
  protocol uses.  Other well-formed JSON values (arrays, numbers, nested
  objects) are rejected by `parseObject`; in the JS code they would
  parse but then match no `data.type` branch, so the observable effect
  on the message state (a no-op) is identical.  A duplicate key keeps
  the last occurrence, as `JSON.parse` does (`lookupLast`).  A frame
  object missing its payload field (e.g. `\x7b"type":"reply"\x7d`) is
  treated as undecodable; the JS code would assign `undefined` to the
  field, a shape no claim exercises.
* JS strings' `.trim()` removes leading/trailing whitespace; `!line.trim()`
  is true exactly when the line is empty or whitespace-only (`isBlank`).
-/

namespace LangRoleplay

/-- One conversation message, mirroring the JS object literals: the user
message `\x7b role: 'user', text \x7d` and the assistant message created as
`\x7b role: 'assistant', reply: '', translation: '', feedback: '',
status: 'loading' \x7d`.  The `error` field is absent (JS `undefined`)
until an error frame or the catch handler assigns it, hence `Option`.
The JS user message has no reply/translation/feedback/status fields and
the assistant message no `text` field; the unused fields stay at their
initial values. -/
structure Msg where
  role : String
  text : String
  reply : String
  translation : String
  feedback : String
  status : String
  error : Option String
  deriving Repr, DecidableEq

/-- The wire frame vocabulary: tagged variants dispatched on by the
`data.type === ...` chain (part_001 lines 106-138). -/
inductive Frame where
  | reply (text : String)
  | translation (text : String)
  | feedback (text : String)
  | done
  | error (message : String)
  deriving Repr, DecidableEq

/-- The assistant message as created before streaming begins
(part_001 lines 73-79). -/
def initMsg : Msg :=
  { role := "assistant", text := "", reply := "", translation := ""
    feedback := "", status := "loading", error := none }

/-- Applying one decoded frame to a message: the body of the
`data.type` dispatch (part_001 lines 106-138), restricted to the fields
it assigns on the last list element.  Content frames assign only their
field; `done` assigns only `status`; `error` assigns `status` and
`error`. -/
def applyFrame (m : Msg) : Frame → Msg
  | .reply t => { m with reply := t }
  | .translation t => { m with translation := t }
  | .feedback t => { m with feedback := t }
  | .done => { m with status := "done" }
  | .error e => { m with status := "error", error := some e }

/-- JS whitespace for `trim()` (the characters relevant to this wire
format). -/
def isWs (c : Char) : Bool :=
  c = ' ' || c = '\t' || c = '\n' || c = '\r' || c = '\x0b' || c = '\x0c'

/-- `!line.trim()`: the line is empty or whitespace-only. -/
def isBlank (l : List Char) : Bool :=
  l.all isWs

/-- Drop leading whitespace (used by the JSON object parser). -/
def skipWs : List Char → List Char
  | [] => []
  | c :: rest => if isWs c then skipWs rest else c :: rest

/-- JSON string escape sequences accepted after a backslash. -/
def parseEsc (e : Char) : Option Char :=
  if e = 'n' then some '\n'
  else if e = 't' then some '\t'
  else if e = 'r' then some '\r'
  else if e = 'b' then some '\x08'
  else if e = 'f' then some '\x0c'
  else if e = '"' then some '"'
  else if e = '\\' then some '\\'
  else if e = '/' then some '/'
  else none

/-- Parse the body of a JSON string after the opening quote, returning
the decoded characters and the remainder after the closing quote. -/
def parseJStringBody : List Char → Option (List Char × List Char)
  | [] => none
  | '"' :: rest => some ([], rest)
  | '\\' :: rest =>
      match rest with
      | [] => none
      | e :: rest' =>
          match parseEsc e with
          | none => none
          | some c =>
              match parseJStringBody rest' with
              | none => none
              | some (s, r) => some (c :: s, r)
  | c :: rest =>
      match parseJStringBody rest with
      | none => none
      | some (s, r) => some (c :: s, r)

/-- Parse a complete JSON string (opening quote included). -/
def parseJString (s : List Char) : Option (String × List Char) :=
  match s with
  | '"' :: rest =>
      match parseJStringBody rest with
      | none => none
      | some (cs, r) => some (String.mk cs, r)
  | _ => none

/-- Parse the members of a JSON object after the opening brace (and not
empty), fuelled by the input length for termination. -/
def parseMembers : Nat → List Char → Option (List (String × String) × List Char)
  | 0, _ => none
  | fuel + 1, s =>
      match parseJString (skipWs s) with
      | none => none
      | some (k, s1) =>
          match skipWs s1 with
          | ':' :: s2 =>
              match parseJString (skipWs s2) with
              | none => none
              | some (v, s3) =>
                  match skipWs s3 with
                  | ',' :: s4 =>
                      match parseMembers fuel s4 with
                      | none => none
                      | some (ps, rest) => some ((k, v) :: ps, rest)
                  | '\x7d' :: s4 => some ([(k, v)], s4)
                  | _ => none
          | _ => none

/-- Parse a whole line as a flat JSON object with string values,
mirroring the shapes `JSON.parse` can meet on this wire.  Trailing
whitespace after the closing brace is allowed, as `JSON.parse` allows
it. -/
def parseObject (s : List Char) : Option (List (String × String)) :=
  match skipWs s with
  | '\x7b' :: r =>
      match skipWs r with
      | '\x7d' :: r2 => if skipWs r2 = [] then some [] else none
      | _ =>
          match parseMembers (r.length + 1) r with
          | none => none
          | some (ps, rest) => if skipWs rest = [] then some ps else none
  | _ => none

/-- Last binding of a key, as `JSON.parse` keeps the last duplicate. -/
def lookupLast (fields : List (String × String)) (k : String) : Option String :=
  fields.reverse.lookup k

/-- Decode one complete line into a frame: `JSON.parse` followed by the
`data.type` dispatch.  Returns `none` both for a line that fails to
parse (the catch at part_001 lines 139-141 drops it) and for a parsed
object whose `type` matches no branch (the dispatch falls through) -
in both cases the loop makes no state change. -/
def parseFrame (line : List Char) : Option Frame :=
  match parseObject line with
  | none => none
  | some fields =>
      match lookupLast fields "type" with
      | none => none
      | some ty =>
          if ty = "reply" then (lookupLast fields "text").map Frame.reply
          else if ty = "translation" then (lookupLast fields "text").map Frame.translation
          else if ty = "feedback" then (lookupLast fields "text").map Frame.feedback
          else if ty = "done" then some Frame.done
          else if ty = "error" then (lookupLast fields "message").map Frame.error
          else none

/-- The body of `for (const line of lines)` (part_001 lines 101-142):
skip a blank line, otherwise decode and apply; a decode failure or an
unmatched `type` leaves the message unchanged. -/
def applyLine (m : Msg) (line : List Char) : Msg :=
  if isBlank line then m
  else
    match parseFrame line with
    | some f => applyFrame m f
    | none => m

/-- `buffer.split('\n')` on character lists: every maximal
newline-free run, including the empty final fragment after a trailing
newline.  Never returns `[]`. -/
def splitLines : List Char → List (List Char)
  | [] => [[]]
  | c :: rest =>
      if c = '\n' then [] :: splitLines rest
      else
        match splitLines rest with
        | [] => [[c]]
        | l :: ls => (c :: l) :: ls

/-- Reassembler state: the message being built and the unterminated
buffer tail (`let buffer = ''` at part_001 line 91). -/
structure RState where
  msg : Msg
  buffer : List Char
  deriving Repr, DecidableEq

/-- Initial reassembler state for one request. -/
def initState : RState := { msg := initMsg, buffer := [] }

/-- One iteration of `while (true)` for one received chunk (part_001
lines 97-143): append the chunk to the buffer, split on newlines, pop
the final fragment back into the buffer, and apply every complete
line. -/
def feedChunk (st : RState) (chunk : List Char) : RState :=
  let parts := splitLines (st.buffer ++ chunk)
  { msg := parts.dropLast.foldl applyLine st.msg
    buffer := parts.getLastD [] }

/-- Feed a whole sequence of chunks through the receive loop. -/
def feedChunks (st : RState) (chunks : List (List Char)) : RState :=
  chunks.foldl feedChunk st

/-- The end-of-stream handling of the remaining buffer (part_001 lines
145-157): if the leftover buffer is non-blank, parse it, and apply it
only when it decodes to a `reply` frame - `translation`, `feedback`,
`done` and `error` frames in the unterminated tail are dropped. -/
def flushEnd (st : RState) : Msg :=
  if isBlank st.buffer then st.msg
  else
    match parseFrame st.buffer with
    | some (Frame.reply t) => { st.msg with reply := t }
    | _ => st.msg

/-- A complete normal run of the receive loop: all chunks arrive, the
source then signals end-of-stream, and the remaining buffer is
flushed. -/
def runStream (chunks : List (List Char)) : Msg :=
  flushEnd (feedChunks initState chunks)

/-- A run of the whole `try/catch` of `send`: with `failure = none` the
stream ends normally; with `failure = some k` the transport read throws
after `k` chunks were processed, and the catch handler (part_001 lines
159-166) stamps the message with status `error` and the synthesized
description - the end-of-stream flush inside the `try` is skipped. -/
def runSend (chunks : List (List Char)) (failure : Option Nat) : Msg :=
  match failure with
  | none => runStream chunks
  | some k =>
      let st := feedChunks initState (chunks.take k)
      { st.msg with status := "error", error := some "Failed to send message" }

/-- The `setMessages` updater shape shared by every frame branch:
copy the list and mutate its last element (part_001 lines 107-137). -/
def updateLast (f : Msg → Msg) : List Msg → List Msg
  | [] => []
  | ms => ms.dropLast ++ [f (ms.getLastD initMsg)]

/-- Applying one decoded frame at the conversation-list level. -/
def applyFrameList (msgs : List Msg) (fr : Frame) : List Msg :=
  updateLast (fun m => applyFrame m fr) msgs

/-- Escape one character for the wire encoding of a frame text. -/
def escapeChar (c : Char) : List Char :=
  if c = '"' then ['\\', '"']
  else if c = '\\' then ['\\', '\\']
  else if c = '\n' then ['\\', 'n']
  else if c = '\t' then ['\\', 't']
  else if c = '\r' then ['\\', 'r']
  else [c]

/-- A JSON string literal for the wire encoding. -/
def jstr (s : String) : List Char :=
  '"' :: (s.data.foldr (fun c acc => escapeChar c ++ acc) ['"'])

/-- Encode one frame in the wire format of spec section 6 (the format
the backend emits and the test scenarios quote), one JSON object per
frame, no embedded unescaped newline. -/
def encodeFrame : Frame → List Char
  | .reply t => "\x7b\"type\":\"reply\",\"text\":".data ++ jstr t ++ ['\x7d']
  | .translation t => "\x7b\"type\":\"translation\",\"text\":".data ++ jstr t ++ ['\x7d']
  | .feedback t => "\x7b\"type\":\"feedback\",\"text\":".data ++ jstr t ++ ['\x7d']
  | .done => "\x7b\"type\":\"done\"\x7d".data
  | .error e => "\x7b\"type\":\"error\",\"message\":".data ++ jstr e ++ ['\x7d']

/-- Encode a frame sequence to wire bytes: each frame on its own
newline-terminated line. -/
def wireEncode (fs : List Frame) : List Char :=
  (fs.map (fun f => encodeFrame f ++ ['\n'])).flatten

/-- The text carried by a `reply` frame, if any. -/
def replyText : Frame → Option String
  | .reply t => some t
  | _ => none

/-- The text carried by a `translation` frame, if any. -/
def translationText : Frame → Option String
  | .translation t => some t
  | _ => none

/-- The text carried by a `feedback` frame, if any. -/
def feedbackText : Frame → Option String
  | .feedback t => some t
  | _ => none

/-- A user message as appended by `send` before streaming (part_001
line 70): the JS object has only `role` and `text`; the remaining
fields of the total record stay at empty/none. -/
def mkUserMsg (t : String) : Msg :=
  { role := "user", text := t, reply := "", translation := ""
    feedback := "", status := "", error := none }

/-! ### Chunk-boundary invariance

The buffering discipline of the receive loop is equivalent to a
character-at-a-time reference machine `charStep`; chunk boundaries
vanish in that view, which gives the invariance property. -/

/-- Reference machine: consume one character; a newline applies the
buffered line, any other character is appended to the buffer. -/
def charStep (st : RState) (c : Char) : RState :=
  if c = '\n' then { msg := applyLine st.msg st.buffer, buffer := [] }
  else { st with buffer := st.buffer ++ [c] }

theorem splitLines_cons_newline (s : List Char) :
    splitLines ('\n' :: s) = [] :: splitLines s := by
  simp [splitLines]

theorem splitLines_cons_of_ne {c : Char} (hc : c ≠ '\n') {s : List Char}
    {l : List Char} {ls : List (List Char)} (h : splitLines s = l :: ls) :
    splitLines (c :: s) = (c :: l) :: ls := by
  simp [splitLines, hc, h]

theorem splitLines_ne_nil (s : List Char) : splitLines s ≠ [] := by
  induction s with
  | nil => simp [splitLines]
  | cons c rest ih =>
    by_cases hc : c = '\n'
    · subst hc; rw [splitLines_cons_newline]; simp
    · cases h : splitLines rest with
      | nil => exact absurd h ih
      | cons l ls => rw [splitLines_cons_of_ne hc h]; simp

theorem splitLines_of_no_newline : ∀ {s : List Char}, '\n' ∉ s → splitLines s = [s]
  | [], _ => rfl
  | c :: rest, h => by
    have hc : c ≠ '\n' := fun e => h (e ▸ List.mem_cons_self c rest)
    have hr : '\n' ∉ rest := fun m => h (List.mem_cons_of_mem _ m)
    exact splitLines_cons_of_ne hc (splitLines_of_no_newline hr)

theorem splitLines_append_newline :
    ∀ {buf : List Char}, '\n' ∉ buf →
      ∀ s, splitLines (buf ++ '\n' :: s) = buf :: splitLines s
  | [], _, s => by rw [List.nil_append]; exact splitLines_cons_newline s
  | c :: buf', h, s => by
    have hc : c ≠ '\n' := fun e => h (e ▸ List.mem_cons_self c buf')
    have hb : '\n' ∉ buf' := fun m => h (List.mem_cons_of_mem _ m)
    have ihr := splitLines_append_newline hb s
    rw [List.cons_append]
    exact splitLines_cons_of_ne hc ihr

theorem newline_not_mem_getLast? :
    ∀ (s : List Char) (l : List Char), (splitLines s).getLast? = some l → '\n' ∉ l := by
  intro s
  induction s with
  | nil =>
    intro l hl
    simp only [splitLines, List.getLast?_singleton, Option.some.injEq] at hl
    subst hl
    simp
  | cons c rest ih =>
    intro l hl
    cases hrest : splitLines rest with
    | nil => exact absurd hrest (splitLines_ne_nil rest)
    | cons l1 ls =>
      by_cases hc : c = '\n'
      · subst hc
        rw [splitLines_cons_newline, hrest, List.getLast?_cons_cons] at hl
        exact ih l (by rw [hrest]; exact hl)
      · rw [splitLines_cons_of_ne hc hrest] at hl
        cases ls with
        | nil =>
          rw [List.getLast?_singleton] at hl
          injection hl with hl
          subst hl
          intro hmem
          rcases List.mem_cons.mp hmem with h2 | h2
          · exact hc h2.symm
          · exact ih l1 (by rw [hrest, List.getLast?_singleton]) h2
        | cons a ls' =>
          rw [List.getLast?_cons_cons] at hl
          exact ih l (by rw [hrest, List.getLast?_cons_cons]; exact hl)

theorem newline_not_mem_getLastD (s : List Char) :
    '\n' ∉ (splitLines s).getLastD [] := by
  rw [List.getLastD_eq_getLast?]
  cases h : (splitLines s).getLast? with
  | none => simp
  | some l => simpa using newline_not_mem_getLast? s l h

theorem feedChunk_eq_foldl_charStep :
    ∀ (chunk : List Char) (m : Msg) (buf : List Char), '\n' ∉ buf →
      feedChunk ⟨m, buf⟩ chunk = chunk.foldl charStep ⟨m, buf⟩ := by
  intro chunk
  induction chunk with
  | nil =>
    intro m buf h
    simp [feedChunk, splitLines_of_no_newline h]
  | cons c cs ih =>
    intro m buf h
    by_cases hc : c = '\n'
    · subst hc
      cases hcs : splitLines cs with
      | nil => exact absurd hcs (splitLines_ne_nil cs)
      | cons l1 ls =>
        have hsplit : splitLines (buf ++ '\n' :: cs) = buf :: l1 :: ls := by
          rw [splitLines_append_newline h cs, hcs]
        have lhs : feedChunk ⟨m, buf⟩ ('\n' :: cs) =
            { msg := ((l1 :: ls).dropLast).foldl applyLine (applyLine m buf)
              buffer := ls.getLastD l1 } := by
          simp only [feedChunk, hsplit]
          rw [List.dropLast_cons₂, List.foldl_cons, List.getLastD_cons, List.getLastD_cons]
        have rhs : feedChunk ⟨applyLine m buf, ([] : List Char)⟩ cs =
            { msg := ((l1 :: ls).dropLast).foldl applyLine (applyLine m buf)
              buffer := ls.getLastD l1 } := by
          simp only [feedChunk, List.nil_append, hcs]
          rw [List.getLastD_cons]
        have hstep : charStep ⟨m, buf⟩ '\n' = ⟨applyLine m buf, []⟩ := by
          simp [charStep]
        rw [List.foldl_cons, hstep, ← ih (applyLine m buf) [] (by simp), rhs, lhs]
    · have hmem : '\n' ∉ buf ++ [c] := by
        intro hm
        rcases List.mem_append.mp hm with h1 | h1
        · exact h h1
        · exact hc (List.mem_singleton.mp h1).symm
      have heq : feedChunk ⟨m, buf⟩ (c :: cs) = feedChunk ⟨m, buf ++ [c]⟩ cs := by
        simp only [feedChunk]
        rw [List.append_cons]
      have hstep : charStep ⟨m, buf⟩ c = ⟨m, buf ++ [c]⟩ := by
        simp [charStep, hc]
      rw [List.foldl_cons, hstep, heq]
      exact ih m (buf ++ [c]) hmem

theorem feedChunk_buffer_no_newline (st : RState) (chunk : List Char) :
    '\n' ∉ (feedChunk st chunk).buffer := by
  simp only [feedChunk]
  exact newline_not_mem_getLastD (st.buffer ++ chunk)

theorem feedChunks_eq_foldl_charStep :
    ∀ (chunks : List (List Char)) (st : RState), '\n' ∉ st.buffer →
      feedChunks st chunks = (chunks.flatten).foldl charStep st := by
  intro chunks
  induction chunks with
  | nil => intro st _; rfl
  | cons ch cs ih =>
    intro st h
    have h1 : feedChunks st (ch :: cs) = feedChunks (feedChunk st ch) cs := rfl
    have h2 : feedChunk st ch = ch.foldl charStep st := by
      cases st with
      | mk m buf => exact feedChunk_eq_foldl_charStep ch m buf h
    rw [h1, ih (feedChunk st ch) (feedChunk_buffer_no_newline st ch), h2,
      List.flatten_cons, List.foldl_append]

/-- Any chunking of a byte sequence produces the same final state as the
unchunked sequence. -/
theorem runStream_eq_single (chunks : List (List Char)) :
    runStream chunks = runStream [chunks.flatten] := by
  unfold runStream
  have h1 : feedChunks initState chunks = chunks.flatten.foldl charStep initState :=
    feedChunks_eq_foldl_charStep chunks initState (by simp [initState])
  have h2 : feedChunks initState [chunks.flatten] =
      chunks.flatten.foldl charStep initState := by
    have h3 : feedChunks initState [chunks.flatten] =
        feedChunk ⟨initMsg, []⟩ chunks.flatten := rfl
    rw [h3]
    exact feedChunk_eq_foldl_charStep chunks.flatten initMsg [] (by simp)
  rw [h1, h2]

/-! ### Helper lemmas about line application -/

theorem skipWs_of_blank : ∀ {l : List Char}, isBlank l = true → skipWs l = []
  | [], _ => rfl
  | c :: rest, h => by
    rw [isBlank, List.all_cons, Bool.and_eq_true] at h
    rw [skipWs, if_pos h.1]
    exact skipWs_of_blank (h.2 : isBlank rest = true)

theorem parseFrame_of_blank {l : List Char} (h : isBlank l = true) :
    parseFrame l = none := by
  unfold parseFrame parseObject
  rw [skipWs_of_blank h]

theorem not_blank_of_parse {l : List Char} {f : Frame} (h : parseFrame l = some f) :
    isBlank l = false := by
  cases hb : isBlank l with
  | false => rfl
  | true => rw [parseFrame_of_blank hb] at h; cases h

theorem applyLine_of_parse {l : List Char} {f : Frame} (h : parseFrame l = some f) :
    ∀ m : Msg, applyLine m l = applyFrame m f := by
  intro m
  simp [applyLine, not_blank_of_parse h, h]

theorem applyLine_of_none {l : List Char} (h : parseFrame l = none) :
    ∀ m : Msg, applyLine m l = m := by
  intro m
  by_cases hb : isBlank l
  · simp [applyLine, hb]
  · simp [applyLine, hb, h]

theorem flushEnd_empty (m : Msg) : flushEnd ⟨m, []⟩ = m := by
  simp [flushEnd, isBlank]

/-! ### Status trichotomy: the message status is only ever `loading`,
`done` or `error`. -/

theorem applyFrame_status (m : Msg) (f : Frame) :
    (applyFrame m f).status = m.status ∨ (applyFrame m f).status = "done" ∨
      (applyFrame m f).status = "error" := by
  cases f <;> simp [applyFrame]

theorem applyLine_status (m : Msg) (line : List Char) :
    (applyLine m line).status = m.status ∨ (applyLine m line).status = "done" ∨
      (applyLine m line).status = "error" := by
  by_cases hb : isBlank line
  · simp [applyLine, hb]
  · cases hp : parseFrame line with
    | none => rw [applyLine_of_none hp]; left; rfl
    | some f => rw [applyLine_of_parse hp]; exact applyFrame_status m f

theorem foldl_applyLine_status (lines : List (List Char)) :
    ∀ m : Msg,
      (m.status = "loading" ∨ m.status = "done" ∨ m.status = "error") →
      ((lines.foldl applyLine m).status = "loading" ∨
        (lines.foldl applyLine m).status = "done" ∨
        (lines.foldl applyLine m).status = "error") := by
  induction lines with
  | nil => intro m h; exact h
  | cons l ls ih =>
    intro m h
    rw [List.foldl_cons]
    apply ih
    rcases applyLine_status m l with h1 | h1 | h1
    · rw [h1]; exact h
    · right; left; exact h1
    · right; right; exact h1

theorem feedChunk_status (st : RState) (ch : List Char)
    (h : st.msg.status = "loading" ∨ st.msg.status = "done" ∨ st.msg.status = "error") :
    ((feedChunk st ch).msg.status = "loading" ∨ (feedChunk st ch).msg.status = "done" ∨
      (feedChunk st ch).msg.status = "error") := by
  simp only [feedChunk]
  exact foldl_applyLine_status _ _ h

theorem feedChunks_status (chunks : List (List Char)) :
    ∀ st : RState,
      (st.msg.status = "loading" ∨ st.msg.status = "done" ∨ st.msg.status = "error") →
      ((feedChunks st chunks).msg.status = "loading" ∨
        (feedChunks st chunks).msg.status = "done" ∨
        (feedChunks st chunks).msg.status = "error") := by
  induction chunks with
  | nil => intro st h; exact h
  | cons ch cs ih =>
    intro st h
    have h1 : feedChunks st (ch :: cs) = feedChunks (feedChunk st ch) cs := rfl
    rw [h1]
    exact ih (feedChunk st ch) (feedChunk_status st ch h)

theorem flushEnd_status (st : RState) : (flushEnd st).status = st.msg.status := by
  by_cases hb : isBlank st.buffer
  · simp [flushEnd, hb]
  · cases hp : parseFrame st.buffer with
    | none => simp [flushEnd, hb, hp]
    | some f => cases f <;> simp [flushEnd, hb, hp]

theorem runStream_status (chunks : List (List Char)) :
    (runStream chunks).status = "loading" ∨ (runStream chunks).status = "done" ∨
      (runStream chunks).status = "error" := by
  unfold runStream
  rw [flushEnd_status]
  exact feedChunks_status chunks initState (by simp [initState, initMsg])

/-! ### Last-write-wins view of the content fields -/

theorem foldl_applyFrame_reply (fs : List Frame) :
    ∀ m : Msg, (fs.foldl applyFrame m).reply = (fs.filterMap replyText).getLastD m.reply := by
  induction fs with
  | nil => intro m; rfl
  | cons f fs ih =>
    intro m
    rw [List.foldl_cons, ih]
    cases f with
    | reply t =>
      rw [List.filterMap_cons_some (show replyText (Frame.reply t) = some t from rfl),
        List.getLastD_cons]
      rfl
    | translation t =>
      rw [List.filterMap_cons_none (show replyText (Frame.translation t) = none from rfl)]
      rfl
    | feedback t =>
      rw [List.filterMap_cons_none (show replyText (Frame.feedback t) = none from rfl)]
      rfl
    | done =>
      rw [List.filterMap_cons_none (show replyText Frame.done = none from rfl)]
      rfl
    | error e =>
      rw [List.filterMap_cons_none (show replyText (Frame.error e) = none from rfl)]
      rfl

theorem foldl_applyFrame_translation (fs : List Frame) :
    ∀ m : Msg,
      (fs.foldl applyFrame m).translation =
        (fs.filterMap translationText).getLastD m.translation := by
  induction fs with
  | nil => intro m; rfl
  | cons f fs ih =>
    intro m
    rw [List.foldl_cons, ih]
    cases f with
    | translation t =>
      rw [List.filterMap_cons_some
          (show translationText (Frame.translation t) = some t from rfl),
        List.getLastD_cons]
      rfl
    | reply t =>
      rw [List.filterMap_cons_none (show translationText (Frame.reply t) = none from rfl)]
      rfl
    | feedback t =>
      rw [List.filterMap_cons_none (show translationText (Frame.feedback t) = none from rfl)]
      rfl
    | done =>
      rw [List.filterMap_cons_none (show translationText Frame.done = none from rfl)]
      rfl
    | error e =>
      rw [List.filterMap_cons_none (show translationText (Frame.error e) = none from rfl)]
      rfl

theorem foldl_applyFrame_feedback (fs : List Frame) :
    ∀ m : Msg,
      (fs.foldl applyFrame m).feedback =
        (fs.filterMap feedbackText).getLastD m.feedback := by
  induction fs with
  | nil => intro m; rfl
  | cons f fs ih =>
    intro m
    rw [List.foldl_cons, ih]
    cases f with
    | feedback t =>
      rw [List.filterMap_cons_some (show feedbackText (Frame.feedback t) = some t from rfl),
        List.getLastD_cons]
      rfl
    | reply t =>
      rw [List.filterMap_cons_none (show feedbackText (Frame.reply t) = none from rfl)]
      rfl
    | translation t =>
      rw [List.filterMap_cons_none (show feedbackText (Frame.translation t) = none from rfl)]
      rfl
    | done =>
      rw [List.filterMap_cons_none (show feedbackText Frame.done = none from rfl)]
      rfl
    | error e =>
      rw [List.filterMap_cons_none (show feedbackText (Frame.error e) = none from rfl)]
      rfl

/-! ### Claims -/

/-- C1: chunk-boundary invariance of the Reassembler.  For every
well-formed frame sequence encoded to wire bytes and every partition of
those bytes into chunks (one character at a time, mid-line splits, any
split at all), feeding the chunks sequentially through the receive loop
produces the same final assistant message state as feeding the whole
sequence as one chunk. -/
theorem chunk_invariance (fs : List Frame) (chunks : List (List Char))
    (h : chunks.flatten = wireEncode fs) :
    runStream chunks = runStream [wireEncode fs] := by
  rw [← h]
  exact runStream_eq_single chunks

/-- Witness for C1: the two-frame stream `reply "Hola"`, `done`,
delivered one character at a time, ends in the same message state as
delivered in one chunk. -/
theorem chunk_invariance_witness :
    runStream ((wireEncode [Frame.reply "Hola", Frame.done]).map (fun c => [c])) =
      runStream [wireEncode [Frame.reply "Hola", Frame.done]] :=
  chunk_invariance [Frame.reply "Hola", Frame.done]
    ((wireEncode [Frame.reply "Hola", Frame.done]).map (fun c => [c])) (by decide)

/-- C2 (corrected): when the transport read throws after any number of
chunks, the catch handler synthesizes the `error` resolution (status
`error`, non-empty description `Failed to send message`); on a run where
the stream ends normally, the final status is one of `loading`, `done`,
`error` - in particular a stream that ends cleanly without a terminal
frame leaves the message in the non-terminal status `loading`, so the
exactly-one-terminal property only holds for runs that fail or that
deliver a terminal frame. -/
theorem exactly_one_terminal_amended (chunks : List (List Char)) (k : Nat) :
    (runSend chunks (some k)).status = "error" ∧
    (runSend chunks (some k)).error = some "Failed to send message" ∧
    ((runSend chunks none).status = "loading" ∨
      (runSend chunks none).status = "done" ∨
      (runSend chunks none).status = "error") :=
  ⟨rfl, rfl, runStream_status chunks⟩

/-- C2 counterexample: the stream `\x7b"type":"reply","text":"Ho"\x7d`
followed by a clean end-of-stream (no terminal frame, no transport
error) leaves the message with reply applied but status `loading` -
neither `done` nor `error`, contradicting the claim that every run ends
in exactly one of the two. -/
theorem exactly_one_terminal_counterexample :
    (runSend ["\x7b\"type\":\"reply\",\"text\":\"Ho\"\x7d\n".data] none).reply = "Ho" ∧
    (runSend ["\x7b\"type\":\"reply\",\"text\":\"Ho\"\x7d\n".data] none).status = "loading" ∧
    ¬ ((runSend ["\x7b\"type\":\"reply\",\"text\":\"Ho\"\x7d\n".data] none).status = "done" ∨
       (runSend ["\x7b\"type\":\"reply\",\"text\":\"Ho\"\x7d\n".data] none).status = "error") := by
  refine ⟨by decide, by decide, by decide⟩

/-- C3: replace-not-append.  Applying two consecutive `reply` frames
`"Hola"` then `"Hola, ¿cómo estás?"` leaves the reply field equal to the
second text, and in general after any frame sequence each content field
equals the text of the last frame of that type applied (or its previous
value when no frame of that type occurred). -/
theorem replace_not_append (m : Msg) (fs : List Frame) :
    (applyFrame (applyFrame m (Frame.reply "Hola"))
        (Frame.reply "Hola, ¿cómo estás?")).reply = "Hola, ¿cómo estás?" ∧
    (fs.foldl applyFrame m).reply = (fs.filterMap replyText).getLastD m.reply ∧
    (fs.foldl applyFrame m).translation =
      (fs.filterMap translationText).getLastD m.translation ∧
    (fs.foldl applyFrame m).feedback = (fs.filterMap feedbackText).getLastD m.feedback :=
  ⟨rfl, foldl_applyFrame_reply fs m, foldl_applyFrame_translation fs m,
    foldl_applyFrame_feedback fs m⟩

/-- C4: malformed-line tolerance.  A wire stream holding an undecodable
line between two decodable frame lines still applies both frames; the
bad line is dropped and the loop does not abort. -/
theorem malformed_line_tolerance (l1 bad l2 : List Char) (f1 f2 : Frame)
    (h1 : parseFrame l1 = some f1) (h2 : parseFrame l2 = some f2)
    (hbad : parseFrame bad = none)
    (n1 : '\n' ∉ l1) (n2 : '\n' ∉ l2) (nb : '\n' ∉ bad) :
    runStream [l1 ++ '\n' :: (bad ++ '\n' :: (l2 ++ ['\n']))] =
      applyFrame (applyFrame initMsg f1) f2 := by
  have hsplit : splitLines (l1 ++ '\n' :: (bad ++ '\n' :: (l2 ++ ['\n']))) =
      l1 :: bad :: l2 :: [[]] := by
    rw [splitLines_append_newline n1, splitLines_append_newline nb,
      splitLines_append_newline n2]
    rfl
  have hfc : feedChunks initState [l1 ++ '\n' :: (bad ++ '\n' :: (l2 ++ ['\n']))] =
      feedChunk ⟨initMsg, []⟩ (l1 ++ '\n' :: (bad ++ '\n' :: (l2 ++ ['\n']))) := rfl
  unfold runStream
  rw [hfc]
  simp only [feedChunk, List.nil_append, hsplit]
  have hlines : List.foldl applyLine initMsg (([l1, bad, l2, []] : List (List Char)).dropLast) =
      applyFrame (applyFrame initMsg f1) f2 := by
    simp only [List.dropLast]
    rw [List.foldl_cons, List.foldl_cons, List.foldl_cons, List.foldl_nil,
      applyLine_of_parse h1, applyLine_of_none hbad, applyLine_of_parse h2]
  rw [show (([l1, bad, l2, []] : List (List Char)).getLastD []) = [] from rfl, hlines]
  exact flushEnd_empty (applyFrame (applyFrame initMsg f1) f2)

/-- Witness for C4: the line `oops` between a `reply "Hola"` line and a
`done` line; both frames are applied. -/
theorem malformed_line_tolerance_witness :
    runStream ["\x7b\"type\":\"reply\",\"text\":\"Hola\"\x7d".data ++
        '\n' :: ("oops".data ++ '\n' :: ("\x7b\"type\":\"done\"\x7d".data ++ ['\n']))] =
      applyFrame (applyFrame initMsg (Frame.reply "Hola")) Frame.done :=
  malformed_line_tolerance _ _ _ _ _ (by decide) (by decide) (by decide)
    (by decide) (by decide) (by decide)

/-- C5 (corrected): at end-of-stream the non-blank remaining buffer is
parsed once more, but the code applies it only when it decodes to a
`reply` frame; an unterminated final frame of any other type
(`translation`, `feedback`, `done`, `error`) is dropped.  A final
unterminated `reply` frame is applied exactly as a newline-terminated
line would have been. -/
theorem final_flush_amended (m : Msg) (b : List Char) (t : String)
    (h : parseFrame b = some (Frame.reply t)) :
    flushEnd ⟨m, b⟩ = applyFrame m (Frame.reply t) := by
  have hb : isBlank b = false := not_blank_of_parse h
  simp [flushEnd, hb, h, applyFrame]

/-- Witness for C5: an unterminated final `reply "Hi"` buffer is applied
to the message. -/
theorem final_flush_amended_witness :
    flushEnd ⟨initMsg, "\x7b\"type\":\"reply\",\"text\":\"Hi\"\x7d".data⟩ =
      applyFrame initMsg (Frame.reply "Hi") :=
  final_flush_amended initMsg _ "Hi" (by decide)

/-- C5 counterexample: the stream consisting of a single `done` frame
with no trailing newline leaves status `loading` - the final-buffer
handling does not apply a `done` frame, contradicting the claim that a
well-formed frame of any type in the final buffer is applied. -/
theorem final_flush_counterexample :
    (runStream ["\x7b\"type\":\"done\"\x7d".data]).status = "loading" ∧
    (runStream ["\x7b\"type\":\"done\"\x7d".data]).status ≠ "done" := by
  refine ⟨by decide, by decide⟩

/-- C6 (corrected): applying a `reply`, `translation` or `feedback`
frame leaves the message status unchanged (the code never assigns
`streaming`; the status stays at its creation value `loading` until a
terminal frame); `done` sets status `done`; `error` sets status `error`
and stores the frame's message text. -/
theorem status_transitions_amended (m : Msg) (t e : String) :
    (applyFrame m (Frame.reply t)).status = m.status ∧
    (applyFrame m (Frame.translation t)).status = m.status ∧
    (applyFrame m (Frame.feedback t)).status = m.status ∧
    (applyFrame m Frame.done).status = "done" ∧
    (applyFrame m (Frame.error e)).status = "error" ∧
    (applyFrame m (Frame.error e)).error = some e :=
  ⟨rfl, rfl, rfl, rfl, rfl, rfl⟩

/-- C6 counterexample: applying a `reply` frame to the freshly created
assistant message does not set status `streaming`; the status remains
`loading`. -/
theorem status_transitions_counterexample :
    (applyFrame initMsg (Frame.reply "Hola")).status = "loading" ∧
    (applyFrame initMsg (Frame.reply "Hola")).status ≠ "streaming" := by
  refine ⟨rfl, by decide⟩

/-- C7: happy path.  The four newline-terminated frames
`reply "Hola"`, `translation "Hi"`, `feedback "Good start"`, `done`
leave the assistant message with those three fields and status
`done`. -/
theorem happy_path_scenario :
    (runStream ["\x7b\"type\":\"reply\",\"text\":\"Hola\"\x7d\n\x7b\"type\":\"translation\",\"text\":\"Hi\"\x7d\n\x7b\"type\":\"feedback\",\"text\":\"Good start\"\x7d\n\x7b\"type\":\"done\"\x7d\n".data]).reply = "Hola" ∧
    (runStream ["\x7b\"type\":\"reply\",\"text\":\"Hola\"\x7d\n\x7b\"type\":\"translation\",\"text\":\"Hi\"\x7d\n\x7b\"type\":\"feedback\",\"text\":\"Good start\"\x7d\n\x7b\"type\":\"done\"\x7d\n".data]).translation = "Hi" ∧
    (runStream ["\x7b\"type\":\"reply\",\"text\":\"Hola\"\x7d\n\x7b\"type\":\"translation\",\"text\":\"Hi\"\x7d\n\x7b\"type\":\"feedback\",\"text\":\"Good start\"\x7d\n\x7b\"type\":\"done\"\x7d\n".data]).feedback = "Good start" ∧
    (runStream ["\x7b\"type\":\"reply\",\"text\":\"Hola\"\x7d\n\x7b\"type\":\"translation\",\"text\":\"Hi\"\x7d\n\x7b\"type\":\"feedback\",\"text\":\"Good start\"\x7d\n\x7b\"type\":\"done\"\x7d\n".data]).status = "done" := by
  refine ⟨by decide, by decide, by decide, by decide⟩

/-- C8: an `error` frame sets status `error` and stores the frame's
message text while leaving reply, translation and feedback exactly as
they were; in particular the wire input
`\x7b"type":"error","message":"rate limited"\x7d` resolves the fresh
message with error description `rate limited` and all content fields
still empty. -/
theorem upstream_error_scenario (m : Msg) (e : String) :
    (applyFrame m (Frame.error e)).status = "error" ∧
    (applyFrame m (Frame.error e)).error = some e ∧
    (applyFrame m (Frame.error e)).reply = m.reply ∧
    (applyFrame m (Frame.error e)).translation = m.translation ∧
    (applyFrame m (Frame.error e)).feedback = m.feedback ∧
    (runStream ["\x7b\"type\":\"error\",\"message\":\"rate limited\"\x7d\n".data]).status = "error" ∧
    (runStream ["\x7b\"type\":\"error\",\"message\":\"rate limited\"\x7d\n".data]).error = some "rate limited" ∧
    (runStream ["\x7b\"type\":\"error\",\"message\":\"rate limited\"\x7d\n".data]).reply = "" ∧
    (runStream ["\x7b\"type\":\"error\",\"message\":\"rate limited\"\x7d\n".data]).translation = "" ∧
    (runStream ["\x7b\"type\":\"error\",\"message\":\"rate limited\"\x7d\n".data]).feedback = "" :=
  ⟨rfl, rfl, rfl, rfl, rfl, by decide, by decide, by decide, by decide, by decide⟩

/-- C9: only the last message is mutated.  Applying a decoded frame at
the conversation-list level preserves the list length and leaves every
element except the last one exactly unchanged (all fields). -/
theorem only_last_mutated (msgs : List Msg) (fr : Frame) (i : Nat)
    (h : i + 1 < msgs.length) :
    (applyFrameList msgs fr).length = msgs.length ∧
    (applyFrameList msgs fr)[i]? = msgs[i]? := by
  cases msgs with
  | nil => simp at h
  | cons m0 ms =>
    have hu : applyFrameList (m0 :: ms) fr =
        (m0 :: ms).dropLast ++ [applyFrame ((m0 :: ms).getLastD initMsg) fr] := rfl
    have hi : i < (m0 :: ms).length - 1 := by
      simpa [Nat.lt_sub_iff_add_lt] using h
    constructor
    · rw [hu, List.length_append, List.length_dropLast]
      simp [List.length_cons]
    · rw [hu, List.getElem?_append, List.length_dropLast, if_pos hi,
        List.getElem?_dropLast, if_pos hi]

/-- Witness for C9: applying `done` to a two-message history ([user
message, open assistant message]) keeps the length and leaves the user
message untouched. -/
theorem only_last_mutated_witness :
    (applyFrameList [mkUserMsg "Hi", initMsg] Frame.done).length = 2 ∧
    (applyFrameList [mkUserMsg "Hi", initMsg] Frame.done)[0]? = some (mkUserMsg "Hi") := by
  have h := only_last_mutated [mkUserMsg "Hi", initMsg] Frame.done 0 (by decide)
  exact ⟨h.1, by rw [h.2]; rfl⟩

/-- C10: blank lines and unknown frame types are no-ops.  A complete
line that is empty or whitespace-only, or that parses as a JSON object
whose `type` field is none of the five known discriminators, leaves the
message unchanged (and the loop continues). -/
theorem unknown_or_blank_noop (m : Msg) (line : List Char)
    (h : isBlank line = true ∨
      ∃ fields, parseObject line = some fields ∧
        ∀ ty, lookupLast fields "type" = some ty →
          ty ≠ "reply" ∧ ty ≠ "translation" ∧ ty ≠ "feedback" ∧
            ty ≠ "done" ∧ ty ≠ "error") :
    applyLine m line = m := by
  rcases h with hb | ⟨fields, hf, hty⟩
  · simp [applyLine, hb]
  · have hp : parseFrame line = none := by
      unfold parseFrame
      rw [hf]
      show (match lookupLast fields "type" with
        | none => none
        | some ty =>
            if ty = "reply" then (lookupLast fields "text").map Frame.reply
            else if ty = "translation" then (lookupLast fields "text").map Frame.translation
            else if ty = "feedback" then (lookupLast fields "text").map Frame.feedback
            else if ty = "done" then some Frame.done
            else if ty = "error" then (lookupLast fields "message").map Frame.error
            else none) = none
      cases hl : lookupLast fields "type" with
      | none => rfl
      | some ty =>
        obtain ⟨t1, t2, t3, t4, t5⟩ := hty ty hl
        simp [t1, t2, t3, t4, t5]
    exact applyLine_of_none hp m

/-- Witness for C10: the well-formed JSON line
`\x7b"type":"ping"\x7d` leaves the fresh assistant message unchanged. -/
theorem unknown_or_blank_noop_witness :
    applyLine initMsg ("\x7b\"type\":\"ping\"\x7d".data) = initMsg :=
  unknown_or_blank_noop initMsg _
    (Or.inr ⟨[("type", "ping")], by decide, by
      intro ty hty
      rw [show lookupLast [(("type" : String), ("ping" : String))] "type" =
          some "ping" from by decide] at hty
      injection hty with hty
      subst hty
      refine ⟨by decide, by decide, by decide, by decide, by decide⟩⟩)

end LangRoleplay
